import Mathlib

/-!
# Verification of the I18n address-field resolution logic

Shallow embedding of `src/components/I18nAddressFields.js`:
the format-template parser (`wrangleAddressData`), the address
reconciler (`getAddressFieldDifferences`), the canonical serializer
(`serializeAddress`), the zone-option builder (`buildZoneOption` /
the `ZoneSelect` memo and effect), and the `fetchData` effect of the
`I18nAddressFields` component.

JavaScript objects with string-or-null values are modelled as ordered
association lists (`Obj`); `null`/`undefined` inputs are modelled with
`Option`; code paths that throw a `TypeError` are modelled with
`Except JsError`.  Strings are compared with Lean's lexicographic
order on characters, which agrees with JavaScript's UTF-16 code-unit
order on ASCII data.
-/

/-- A thrown JavaScript error (the code only ever throws `TypeError`s on
the paths modelled here). -/
inductive JsError where
  | typeError
deriving DecidableEq, Repr

/-- A JavaScript object with string-or-null values: an ordered list of
key/value entries with (in well-formed objects) unique keys.  `none`
models a `null` value. -/
abbrev Obj := List (String × Option String)

/-- A zone entry from the Shopify schema: `{ code, name }`. -/
structure ZoneEntry where
  code : String
  name : String
deriving DecidableEq, Repr

/-- One entry of the resolved address-field list.  In the source this is
the array `[key, label]`, onto which the zone list is `push`ed as a
third element for the `zone` field; we model that third element as
`zoneInfo`. -/
structure FieldEntry where
  key : String
  label : String
  zoneInfo : Option (List ZoneEntry) := none
deriving DecidableEq, Repr

/-- The country schema as consumed by `wrangleAddressData`:
`formatting.edit` (the format template, `none` modelling a missing or
`null` template), `labels` (ordered entries of the labels object) and
`zones`.  (`optionalLabels` plays no role in the claims.) -/
structure CountrySchema where
  formatting_edit : Option String
  labels : List (String × String)
  zones : List ZoneEntry
deriving DecidableEq, Repr

/-! ## The regex `/([A-Za-z])\w+/g` -/

/-- JavaScript's `\w`: `[A-Za-z0-9_]`. -/
def isWordChar (c : Char) : Bool :=
  c.isAlpha || c.isDigit || c == '_'

/-- Fueled scan for the global regex `/([A-Za-z])\w+/g`: at an ASCII
letter with at least one following word character, match the letter
together with the maximal run of word characters after it and continue
past the match; otherwise advance one character.  The fuel is the
length of the remaining input, which strictly decreases. -/
def regexTokensAux : Nat → List Char → List (List Char)
  | _, [] => []
  | 0, _ :: _ => []
  | fuel + 1, c :: rest =>
    if c.isAlpha then
      let w := rest.takeWhile isWordChar
      if w.isEmpty then regexTokensAux fuel rest
      else (c :: w) :: regexTokensAux fuel (rest.dropWhile isWordChar)
    else regexTokensAux fuel rest

/-- `template.match(/([A-Za-z])\w+/g)`, as the list of matched
substrings (the empty list models the `null` result of `match`). -/
def regexTokens (s : String) : List String :=
  (regexTokensAux s.data.length s.data).map fun l => ⟨l⟩

/-! ## `wrangleAddressData` -/

/-- `const necessaryFields = ['address1', 'address2', 'city', 'zip', 'province']`. -/
def necessaryFields : List String :=
  ["address1", "address2", "city", "zip", "province"]

/-- The per-match renaming applied to recognized tokens:
`zip → postalCode`, `province → zone`, identity otherwise. -/
def mapMatch (m : String) : String :=
  if m = "zip" then "postalCode" else if m = "province" then "zone" else m

/-- `matches.filter(... necessaryFields.includes ...).map(...)`: the
recognized tokens of a template, renamed. -/
def mappedMatches (t : String) : List String :=
  ((regexTokens t).filter fun m => necessaryFields.contains m).map mapMatch

/-- JavaScript `Array.prototype.indexOf` (strict equality): the index
of the first occurrence, or `-1` when absent. -/
def jsIndexOf : List String → String → Int
  | [], _ => -1
  | a :: t, s =>
    if a = s then 0
    else if jsIndexOf t s = -1 then -1 else jsIndexOf t s + 1

/-- The comparator `mappedMatches.indexOf(a[0]) - mappedMatches.indexOf(b[0])`
of the `.sort` call, as a `≤`-relation on label entries. -/
def idxLe (mm : List String) (a b : String × String) : Prop :=
  jsIndexOf mm a.1 ≤ jsIndexOf mm b.1

instance (mm : List String) : DecidableRel (idxLe mm) := fun a b =>
  inferInstanceAs (Decidable (jsIndexOf mm a.1 ≤ jsIndexOf mm b.1))

instance (mm : List String) : IsTotal (String × String) (idxLe mm) :=
  ⟨fun a b => Int.le_total (jsIndexOf mm a.1) (jsIndexOf mm b.1)⟩

instance (mm : List String) : IsTrans (String × String) (idxLe mm) :=
  ⟨fun _ _ _ hab hbc => Int.le_trans hab hbc⟩

/-- `zoneIndex.push(addressInfo.zones)`: attach the zone list to the
first entry whose key is `"zone"`. -/
def pushZones : List FieldEntry → List ZoneEntry → List FieldEntry
  | [], _ => []
  | e :: rest, zs =>
    if e.key = "zone" then { e with zoneInfo := some zs } :: rest
    else e :: pushZones rest zs

/-- `wrangleAddressData` of `I18nAddressFields.js`.  A `null`/missing
template makes `formLayout.match` throw; a template with no regex match
makes `match` return `null`, so the following `.filter` throws; when the
template requests `province`, the zones are non-empty and the labels
object has no `zone` entry, `zoneIndex` is `undefined` and `.push`
throws.  All three paths are modelled as `.error .typeError`.
(JavaScript's stable `.sort` under the total index preorder is modelled
with `List.insertionSort`, which is also stable.) -/
def wrangleAddressData (addressInfo : CountrySchema) : Except JsError (List FieldEntry) :=
  match addressInfo.formatting_edit with
  | none => .error .typeError
  | some formLayout =>
    if regexTokens formLayout = [] then .error .typeError
    else
      let mm := mappedMatches formLayout
      let addressFormFields :=
        List.insertionSort (idxLe mm)
          (addressInfo.labels.filter fun e => mm.contains e.1)
      let fields0 := addressFormFields.map fun e => FieldEntry.mk e.1 e.2 none
      if mm.contains "zone" && !addressInfo.zones.isEmpty then
        if fields0.any fun e => e.key == "zone" then
          .ok (pushZones fields0 addressInfo.zones)
        else .error .typeError
      else .ok fields0

/-! ## JavaScript string comparison (`<` on strings, code-unit order) -/

/-- Lexicographic `≤` on character lists by code point (for the ASCII
data handled here this coincides with JavaScript's UTF-16 code-unit
comparison, which underlies both `Array.prototype.sort`'s default
string comparison and lodash's `orderBy`). -/
def charsLeB : List Char → List Char → Bool
  | [], _ => true
  | _ :: _, [] => false
  | a :: as, b :: bs =>
    if a.toNat < b.toNat then true
    else if b.toNat < a.toNat then false
    else charsLeB as bs

/-- JavaScript's string `≤` (code-unit lexicographic). -/
def jsStrLe (a b : String) : Prop :=
  charsLeB a.data b.data = true

instance : DecidableRel jsStrLe := fun a b =>
  inferInstanceAs (Decidable (charsLeB a.data b.data = true))

/-! ## `serializeAddress` -/

/-- `address[k]` for a key taken from the object itself (the value may
be `null`, modelled as `none`). -/
def jsGetValue (address : Obj) (k : String) : Option String :=
  match address.find? fun e => e.1 == k with
  | some e => e.2
  | none => none

/-- `Array.prototype.join('\n')`: `null`/`undefined` elements become
empty strings. -/
def jsJoin (l : List (Option String)) : String :=
  String.intercalate "\n" (l.map fun v => v.getD "")

/-- `serializeAddress`: sort the keys (JavaScript's default string
sort), map each to its value, join with newlines. -/
def serializeAddress (address : Obj) : String :=
  jsJoin ((List.insertionSort jsStrLe (address.map Prod.fst)).map fun k => jsGetValue address k)

/-! ## `getAddressFieldDifferences` -/

/-- Keep-first deduplication (`_.pick` assigns each listed key once;
a repeated key overwrites with the same value, leaving one entry at the
first position). -/
def dedupKeepFirstAux (seen : List String) : List String → List String
  | [] => []
  | a :: l =>
    if a ∈ seen then dedupKeepFirstAux seen l
    else a :: dedupKeepFirstAux (a :: seen) l

/-- The distinct elements of a list, each at its first occurrence. -/
def dedupKeepFirst (l : List String) : List String :=
  dedupKeepFirstAux [] l

/-- `_.pick(object, keys)`: a fresh object holding, for each listed key
present in `object`, that key with its (unchanged) value. -/
def jsPick (obj : Obj) (keys : List String) : Obj :=
  (dedupKeepFirst keys).filterMap fun k =>
    (obj.find? fun e => e.1 == k).map fun e => (k, e.2)

/-- `getAddressFieldDifferences`.  `Object.keys(null)` /
`Object.keys(undefined)` throws a `TypeError`, modelled by the `none`
case. -/
def getAddressFieldDifferences (formAddressValues : Option Obj)
    (addressFields : List FieldEntry) : Except JsError Obj :=
  match formAddressValues with
  | none => .error .typeError
  | some vals =>
    let addressFieldsArray := addressFields.map (·.key)
    let differenceInAddressFields :=
      !((vals.map Prod.fst).filter fun k => !addressFieldsArray.contains k).isEmpty
    if differenceInAddressFields then .ok (jsPick vals addressFieldsArray)
    else .ok vals

/-! ## `ZoneSelect`: option building and selection validation -/

/-- A `{ value, label }` option of the zone select. -/
structure ZoneOption where
  value : String
  label : String
deriving DecidableEq, Repr

/-- `_.truncate(s, { length: n })` with the default `'...'` omission:
strings of length at most `n` are returned unchanged; longer strings
are cut so that the result *including* the three-dot omission has
length exactly `n`. -/
def jsTruncate (s : String) (n : Nat) : String :=
  if s.length ≤ n then s else ⟨s.data.take (n - 3)⟩ ++ "..."

/-- `buildZoneOption`: `value` is the zone *name*; `label` is the
truncated name followed by `" - "` and the code. -/
def buildZoneOption (zone : ZoneEntry) : ZoneOption :=
  { value := zone.name, label := jsTruncate zone.name 30 ++ " - " ++ zone.code }

/-- `orderBy((info || []).map(buildZoneOption), 'label')`: a stable
ascending sort by `label` (lodash `orderBy` is stable and compares
strings by code units). -/
def zoneOptions (info : List ZoneEntry) : List ZoneOption :=
  List.insertionSort (fun a b => jsStrLe a.label b.label) (info.map buildZoneOption)

/-- The "reset zone if not supported" effect of `ZoneSelect`: returns
the emitted field update, if any (`some none` = an update setting the
value to `null`; `none` = no update emitted).  The guard
`formValueZone && !zoneOptions.find(...)` fires exactly when the value
is truthy (non-null, non-empty) and no option's `value` equals it. -/
def validateSelection (options : List ZoneOption) (value : Option String) :
    Option (Option String) :=
  match value with
  | none => none
  | some v =>
    if v = "" then none
    else if (options.find? fun o => o.value == v).isSome then none
    else some none

/-! ## The `fetchData` effect of `I18nAddressFields` -/

/-- The component state touched by `fetchData`: `data`, `fields`,
`loading`, plus the last value handed to `onCountryChange`. -/
structure CompState where
  data : Option CountrySchema
  fields : Option (List FieldEntry)
  appliedValue : Option Obj
  loading : Bool
deriving DecidableEq, Repr

/-- The state before any fetch result arrives (after the effect has run
`setLoading(true)` for the outstanding fetches). -/
def initState : CompState :=
  { data := none, fields := none, appliedValue := none, loading := true }

instance {ε α : Type} [DecidableEq ε] [DecidableEq α] : DecidableEq (Except ε α) := fun a b =>
  match a, b with
  | .error e, .error f => if h : e = f then .isTrue (by rw [h]) else .isFalse (by simp [h])
  | .ok x, .ok y => if h : x = y then .isTrue (by rw [h]) else .isFalse (by simp [h])
  | .error _, .ok _ => .isFalse (by simp)
  | .ok _, .error _ => .isFalse (by simp)

/-- One resolved fetch: the `value` prop captured by the effect closure
at initiation time, and the provider's response (`.error` models a
rejected `getCountry` call). -/
structure Completion where
  capturedValue : Option Obj
  response : Except Unit CountrySchema
deriving DecidableEq, Repr

/-- The continuation of `fetchData` after `await`, exactly as in the
source: `setData`, then `wrangleAddressData` and `setFields`, then
`onCountryChange(getAddressFieldDifferences(value, addressFields))`;
any exception is caught and reported via `onLoadError`, and `finally`
clears `loading`.  Crucially, the code performs *no* staleness check
before applying the result. -/
def applyCompletion (st : CompState) (c : Completion) : CompState :=
  match c.response with
  | .error _ => { st with loading := false }
  | .ok response =>
    let st1 := { st with data := some response }
    match wrangleAddressData response with
    | .error _ => { st1 with loading := false }
    | .ok addressFields =>
      let st2 := { st1 with fields := some addressFields }
      match getAddressFieldDifferences c.capturedValue addressFields with
      | .error _ => { st2 with loading := false }
      | .ok pruned => { st2 with appliedValue := some pruned, loading := false }

/-- Process fetch results in their arrival order. -/
def runCompletions (st : CompState) (cs : List Completion) : CompState :=
  cs.foldl applyCompletion st

/-! ## Helper lemmas: `jsIndexOf` -/

lemma jsIndexOf_nonneg {l : List String} {s : String} (h : s ∈ l) : 0 ≤ jsIndexOf l s := by
  induction l with
  | nil => cases h
  | cons a t ih =>
    by_cases hs : a = s
    · simp [jsIndexOf, hs]
    · have hmem : s ∈ t := by
        rcases List.mem_cons.1 h with h' | h'
        · exact absurd h'.symm hs
        · exact h'
      have := ih hmem
      simp only [jsIndexOf, if_neg hs]
      split
      · omega
      · omega

lemma jsIndexOf_cons_self {a : String} {t : List String} : jsIndexOf (a :: t) a = 0 := by
  simp [jsIndexOf]

lemma jsIndexOf_cons_ne {a s : String} {t : List String} (hne : a ≠ s) (hm : s ∈ t) :
    jsIndexOf (a :: t) s = jsIndexOf t s + 1 := by
  have h0 := jsIndexOf_nonneg hm
  simp only [jsIndexOf, if_neg hne]
  split
  · omega
  · rfl

lemma jsIndexOf_inj {l : List String} {x y : String} (hx : x ∈ l) (hy : y ∈ l)
    (h : jsIndexOf l x = jsIndexOf l y) : x = y := by
  induction l with
  | nil => cases hx
  | cons a t ih =>
    by_cases hxa : a = x <;> by_cases hya : a = y
    · exact hxa ▸ hya
    · have hyt : y ∈ t := by
        rcases List.mem_cons.1 hy with h' | h'
        · exact absurd h'.symm hya
        · exact h'
      rw [jsIndexOf_cons_ne hya hyt] at h
      have h1 := jsIndexOf_nonneg hyt
      rw [show jsIndexOf (a :: t) x = 0 by simp [jsIndexOf, hxa]] at h
      omega
    · have hxt : x ∈ t := by
        rcases List.mem_cons.1 hx with h' | h'
        · exact absurd h'.symm hxa
        · exact h'
      rw [jsIndexOf_cons_ne hxa hxt] at h
      have h1 := jsIndexOf_nonneg hxt
      rw [show jsIndexOf (a :: t) y = 0 by simp [jsIndexOf, hya]] at h
      omega
    · have hxt : x ∈ t := by
        rcases List.mem_cons.1 hx with h' | h'
        · exact absurd h'.symm hxa
        · exact h'
      have hyt : y ∈ t := by
        rcases List.mem_cons.1 hy with h' | h'
        · exact absurd h'.symm hya
        · exact h'
      rw [jsIndexOf_cons_ne hxa hxt, jsIndexOf_cons_ne hya hyt] at h
      exact ih hxt hyt (by omega)

/-! ## Helper lemmas: `dedupKeepFirst` -/

lemma mem_dedupKeepFirstAux {y : String} :
    ∀ {l seen : List String}, y ∈ dedupKeepFirstAux seen l ↔ y ∈ l ∧ y ∉ seen := by
  intro l
  induction l with
  | nil => intro seen; simp [dedupKeepFirstAux]
  | cons a t ih =>
    intro seen
    by_cases ha : a ∈ seen
    · rw [show dedupKeepFirstAux seen (a :: t) = dedupKeepFirstAux seen t by
        simp [dedupKeepFirstAux, ha]]
      rw [ih]
      constructor
      · rintro ⟨h1, h2⟩; exact ⟨List.mem_cons_of_mem a h1, h2⟩
      · rintro ⟨h1, h2⟩
        rcases List.mem_cons.1 h1 with h' | h'
        · exact absurd (h' ▸ ha) h2
        · exact ⟨h', h2⟩
    · rw [show dedupKeepFirstAux seen (a :: t) = a :: dedupKeepFirstAux (a :: seen) t by
        simp [dedupKeepFirstAux, ha]]
      constructor
      · intro h
        rcases List.mem_cons.1 h with h' | h'
        · exact ⟨h' ▸ List.mem_cons_self a t, h' ▸ ha⟩
        · obtain ⟨h1, h2⟩ := ih.1 h'
          exact ⟨List.mem_cons_of_mem a h1, fun hc => h2 (List.mem_cons_of_mem a hc)⟩
      · rintro ⟨h1, h2⟩
        by_cases hya : y = a
        · exact hya ▸ List.mem_cons_self a _
        · rcases List.mem_cons.1 h1 with h' | h'
          · exact absurd h' hya
          · refine List.mem_cons_of_mem a (ih.2 ⟨h', fun hc => ?_⟩)
            rcases List.mem_cons.1 hc with h'' | h''
            · exact hya h''
            · exact h2 h''

lemma mem_dedupKeepFirst {y : String} {l : List String} : y ∈ dedupKeepFirst l ↔ y ∈ l := by
  rw [dedupKeepFirst, mem_dedupKeepFirstAux]
  simp

lemma nodup_dedupKeepFirstAux : ∀ {l seen : List String}, (dedupKeepFirstAux seen l).Nodup := by
  intro l
  induction l with
  | nil => intro seen; simp [dedupKeepFirstAux]
  | cons a t ih =>
    intro seen
    by_cases ha : a ∈ seen
    · rw [show dedupKeepFirstAux seen (a :: t) = dedupKeepFirstAux seen t by
        simp [dedupKeepFirstAux, ha]]
      exact ih
    · rw [show dedupKeepFirstAux seen (a :: t) = a :: dedupKeepFirstAux (a :: seen) t by
        simp [dedupKeepFirstAux, ha]]
      refine List.nodup_cons.2 ⟨fun hc => ?_, ih⟩
      exact (mem_dedupKeepFirstAux.1 hc).2 (List.mem_cons_self a _)

lemma nodup_dedupKeepFirst {l : List String} : (dedupKeepFirst l).Nodup :=
  nodup_dedupKeepFirstAux

lemma pairwise_idx_dedupKeepFirstAux :
    ∀ {l seen : List String},
      (dedupKeepFirstAux seen l).Pairwise (fun x y => jsIndexOf l x < jsIndexOf l y) := by
  intro l
  induction l with
  | nil => intro seen; simp [dedupKeepFirstAux]
  | cons a t ih =>
    intro seen
    by_cases ha : a ∈ seen
    · rw [show dedupKeepFirstAux seen (a :: t) = dedupKeepFirstAux seen t by
        simp [dedupKeepFirstAux, ha]]
      refine (@ih seen).imp_of_mem ?_
      intro x y hx hy hlt
      have hxt := (mem_dedupKeepFirstAux.1 hx).1
      have hyt := (mem_dedupKeepFirstAux.1 hy).1
      have hxa : a ≠ x := fun hc => (mem_dedupKeepFirstAux.1 hx).2 (hc ▸ ha)
      have hya : a ≠ y := fun hc => (mem_dedupKeepFirstAux.1 hy).2 (hc ▸ ha)
      rw [jsIndexOf_cons_ne hxa hxt, jsIndexOf_cons_ne hya hyt]
      omega
    · rw [show dedupKeepFirstAux seen (a :: t) = a :: dedupKeepFirstAux (a :: seen) t by
        simp [dedupKeepFirstAux, ha]]
      refine List.pairwise_cons.2 ⟨fun y hy => ?_, ?_⟩
      · have hyt := (mem_dedupKeepFirstAux.1 hy).1
        have hya : a ≠ y := fun hc =>
          (mem_dedupKeepFirstAux.1 hy).2 (hc ▸ List.mem_cons_self a seen)
        rw [jsIndexOf_cons_ne hya hyt, jsIndexOf_cons_self]
        have := jsIndexOf_nonneg hyt
        omega
      · refine (@ih (a :: seen)).imp_of_mem ?_
        intro x y hx hy hlt
        have hxt := (mem_dedupKeepFirstAux.1 hx).1
        have hyt := (mem_dedupKeepFirstAux.1 hy).1
        have hxa : a ≠ x := fun hc =>
          (mem_dedupKeepFirstAux.1 hx).2 (hc ▸ List.mem_cons_self a seen)
        have hya : a ≠ y := fun hc =>
          (mem_dedupKeepFirstAux.1 hy).2 (hc ▸ List.mem_cons_self a seen)
        rw [jsIndexOf_cons_ne hxa hxt, jsIndexOf_cons_ne hya hyt]
        omega

lemma pairwise_idx_dedupKeepFirst {l : List String} :
    (dedupKeepFirst l).Pairwise (fun x y => jsIndexOf l x < jsIndexOf l y) :=
  pairwise_idx_dedupKeepFirstAux

/-! ## Helper lemmas: the filter/sort stage of `wrangleAddressData` -/

lemma sortedFiltered_keys_nodup (mm : List String) (labels : List (String × String))
    (hnodup : (labels.map Prod.fst).Nodup) :
    ((List.insertionSort (idxLe mm) (labels.filter fun e => mm.contains e.1)).map
      Prod.fst).Nodup := by
  have hperm := List.perm_insertionSort (idxLe mm) (labels.filter fun e => mm.contains e.1)
  have hsub : (((labels.filter fun e => mm.contains e.1)).map Prod.fst).Nodup :=
    hnodup.sublist ((List.filter_sublist labels).map Prod.fst)
  exact ((hperm.map Prod.fst).nodup_iff).2 hsub

lemma sortedFiltered_keys_eq (mm : List String) (labels : List (String × String))
    (hnodup : (labels.map Prod.fst).Nodup)
    (hcover : ∀ k ∈ mm, k ∈ labels.map Prod.fst) :
    ((List.insertionSort (idxLe mm) (labels.filter fun e => mm.contains e.1)).map Prod.fst)
      = dedupKeepFirst mm := by
  set filtered := labels.filter fun e => mm.contains e.1 with hf
  set sorted := List.insertionSort (idxLe mm) filtered with hs
  have hmemK : ∀ k, k ∈ sorted.map Prod.fst ↔ k ∈ mm := by
    intro k
    constructor
    · intro hk
      obtain ⟨e, he, rfl⟩ := List.mem_map.1 hk
      have he1 : e ∈ filtered := (List.perm_insertionSort (idxLe mm) filtered).subset he
      have he2 := List.mem_filter.1 he1
      simpa using he2.2
    · intro hk
      obtain ⟨e, he, hek⟩ := List.mem_map.1 (hcover k hk)
      have he1 : e ∈ filtered := List.mem_filter.2 ⟨he, by simpa using hek ▸ hk⟩
      have he2 : e ∈ sorted := (List.perm_insertionSort (idxLe mm) filtered).mem_iff.2 he1
      exact List.mem_map.2 ⟨e, he2, hek⟩
  have hKnodup : (sorted.map Prod.fst).Nodup := sortedFiltered_keys_nodup mm labels hnodup
  have hperm : List.Perm (sorted.map Prod.fst) (dedupKeepFirst mm) :=
    (List.perm_ext_iff_of_nodup hKnodup nodup_dedupKeepFirst).2
      fun k => by rw [hmemK, mem_dedupKeepFirst]
  have hsorted : (sorted.map Prod.fst).Pairwise fun x y => jsIndexOf mm x < jsIndexOf mm y := by
    have h1 : sorted.Pairwise (idxLe mm) := List.sorted_insertionSort (idxLe mm) filtered
    have h2 : (sorted.map Prod.fst).Pairwise fun x y => jsIndexOf mm x ≤ jsIndexOf mm y :=
      (List.pairwise_map).2 (h1.imp fun h => h)
    have h3 : (sorted.map Prod.fst).Pairwise (· ≠ ·) := hKnodup
    refine (h2.and h3).imp_of_mem ?_
    rintro x y hx hy ⟨hle, hne⟩
    exact lt_of_le_of_ne hle fun he =>
      hne (jsIndexOf_inj ((hmemK x).1 hx) ((hmemK y).1 hy) he)
  haveI : IsAntisymm String fun x y => jsIndexOf mm x < jsIndexOf mm y :=
    ⟨fun a b h1 h2 => absurd h2 (by omega)⟩
  exact List.eq_of_perm_of_sorted hperm hsorted pairwise_idx_dedupKeepFirst

lemma pushZones_keys (l : List FieldEntry) (zs : List ZoneEntry) :
    (pushZones l zs).map FieldEntry.key = l.map FieldEntry.key := by
  induction l with
  | nil => rfl
  | cons e rest ih =>
    by_cases h : e.key = "zone"
    · simp [pushZones, h]
    · simp [pushZones, h, ih]

lemma mapMatch_mem_recognized {m : String} (h : m ∈ necessaryFields) :
    mapMatch m ∈ ["address1", "address2", "city", "postalCode", "zone"] := by
  simp only [necessaryFields, List.mem_cons, List.not_mem_nil, or_false] at h
  rcases h with h | h | h | h | h <;> subst h <;> decide

lemma mappedMatches_mem_recognized {t : String} {k : String} (h : k ∈ mappedMatches t) :
    k ∈ ["address1", "address2", "city", "postalCode", "zone"] := by
  obtain ⟨m, hm, rfl⟩ := List.mem_map.1 h
  have := (List.mem_filter.1 hm).2
  exact mapMatch_mem_recognized (by simpa using this)

/-- C2: for every format template (with at least one regex match, so the
parser does not throw — see C5) and every labels object covering the
recognized tokens, `wrangleAddressData` resolves exactly the recognized
tokens — `zip ↦ postalCode`, `province ↦ zone`, the rest by identity
(`address1`/`address2` are the spec's `street1`/`street2`) — each at its
first occurrence, in first-occurrence order, with unrecognized tokens
absent. -/
theorem wrangle_parse_first_occurrence (t : String) (labels : List (String × String))
    (zones : List ZoneEntry)
    (hmatch : regexTokens t ≠ [])
    (hnodup : (labels.map Prod.fst).Nodup)
    (hcover : ∀ k ∈ mappedMatches t, k ∈ labels.map Prod.fst) :
    ∃ out, wrangleAddressData ⟨some t, labels, zones⟩ = .ok out
      ∧ out.map FieldEntry.key = dedupKeepFirst (mappedMatches t)
      ∧ ∀ k ∈ out.map FieldEntry.key, k ∈ ["address1", "address2", "city", "postalCode", "zone"] := by
  have hkeys0 :
      ((List.insertionSort (idxLe (mappedMatches t))
          (labels.filter fun e => (mappedMatches t).contains e.1)).map
        (fun e => FieldEntry.mk e.1 e.2 none)).map FieldEntry.key
        = dedupKeepFirst (mappedMatches t) := by
    rw [List.map_map]
    exact sortedFiltered_keys_eq (mappedMatches t) labels hnodup hcover
  have hrec : ∀ k ∈ dedupKeepFirst (mappedMatches t),
      k ∈ ["address1", "address2", "city", "postalCode", "zone"] := fun k hk =>
    mappedMatches_mem_recognized (mem_dedupKeepFirst.1 hk)
  simp only [wrangleAddressData, if_neg hmatch]
  by_cases hz : (mappedMatches t).contains "zone" && !zones.isEmpty
  · rw [if_pos hz]
    have hzone : "zone" ∈ mappedMatches t := by
      rw [Bool.and_eq_true] at hz
      simpa using hz.1
    have hzkey : "zone" ∈ ((List.insertionSort (idxLe (mappedMatches t))
        (labels.filter fun e => (mappedMatches t).contains e.1)).map
          (fun e => FieldEntry.mk e.1 e.2 none)).map FieldEntry.key := by
      rw [hkeys0, mem_dedupKeepFirst]
      exact hzone
    obtain ⟨e, he, hek⟩ := List.mem_map.1 hzkey
    have hany : ((List.insertionSort (idxLe (mappedMatches t))
        (labels.filter fun e => (mappedMatches t).contains e.1)).map
          (fun e => FieldEntry.mk e.1 e.2 none)).any (fun e => e.key == "zone") = true :=
      List.any_eq_true.2 ⟨e, he, by simpa using hek⟩
    rw [if_pos hany]
    refine ⟨_, rfl, ?_, ?_⟩
    · rw [pushZones_keys, hkeys0]
    · rw [pushZones_keys, hkeys0]
      exact hrec
  · rw [if_neg hz]
    exact ⟨_, rfl, hkeys0, hkeys0 ▸ hrec⟩

/-- Witness for C2: the claim's example template resolves (with a
covering labels object) to `[address1, city, zone, postalCode]` —
the claim's `[street1, city, zone, postalCode]` with the code's
`address1` naming. -/
theorem wrangle_parse_first_occurrence_witness :
    (∃ out, wrangleAddressData
        ⟨some "\x7b\x7baddress1\x7d\x7d \x7b\x7bcity\x7d\x7d, \x7b\x7bprovince\x7d\x7d \x7b\x7bzip\x7d\x7d",
         [("city", "City"), ("postalCode", "ZIP code"), ("address1", "Address"), ("zone", "Province")],
         []⟩ = .ok out
      ∧ out.map FieldEntry.key
          = dedupKeepFirst (mappedMatches
              "\x7b\x7baddress1\x7d\x7d \x7b\x7bcity\x7d\x7d, \x7b\x7bprovince\x7d\x7d \x7b\x7bzip\x7d\x7d")
      ∧ ∀ k ∈ out.map FieldEntry.key, k ∈ ["address1", "address2", "city", "postalCode", "zone"])
    ∧ dedupKeepFirst (mappedMatches
        "\x7b\x7baddress1\x7d\x7d \x7b\x7bcity\x7d\x7d, \x7b\x7bprovince\x7d\x7d \x7b\x7bzip\x7d\x7d")
        = ["address1", "city", "zone", "postalCode"] :=
  ⟨wrangle_parse_first_occurrence _ _ [] (by decide) (by decide) (by decide), by decide⟩

/-- C10: resolved field descriptors are drawn from the entries of the
labels object, whose keys are unique, so each field key occurs at most
once in the resolved list even when the template repeats a token. -/
theorem wrangle_resolved_keys_nodup (info : CountrySchema) (out : List FieldEntry)
    (hnodup : (info.labels.map Prod.fst).Nodup)
    (hok : wrangleAddressData info = .ok out) :
    (out.map FieldEntry.key).Nodup := by
  rcases info with ⟨fe, labels, zones⟩
  have hnd :
      ∀ mm : List String,
        (((List.insertionSort (idxLe mm) (labels.filter fun e => mm.contains e.1)).map
          (fun e => FieldEntry.mk e.1 e.2 none)).map FieldEntry.key).Nodup := by
    intro mm
    rw [List.map_map]
    exact sortedFiltered_keys_nodup mm labels (by simpa using hnodup)
  cases fe with
  | none => exact absurd hok (by simp [wrangleAddressData])
  | some t =>
    by_cases hm : regexTokens t = []
    · exact absurd hok (by simp [wrangleAddressData, hm])
    · simp only [wrangleAddressData, if_neg hm] at hok
      by_cases hz : (mappedMatches t).contains "zone" && !zones.isEmpty
      · rw [if_pos hz] at hok
        by_cases ha : ((List.insertionSort (idxLe (mappedMatches t))
            (labels.filter fun e => (mappedMatches t).contains e.1)).map
              (fun e => FieldEntry.mk e.1 e.2 none)).any (fun e => e.key == "zone") = true
        · rw [if_pos ha] at hok
          injection hok with h
          subst h
          rw [pushZones_keys]
          exact hnd _
        · rw [if_neg ha] at hok
          exact absurd hok (by simp)
      · rw [if_neg hz] at hok
        injection hok with h
        subst h
        exact hnd _

/-- Witness for C10: a template repeating `city` still resolves `city`
once. -/
theorem wrangle_resolved_keys_nodup_witness :
    wrangleAddressData
        ⟨some "\x7b\x7bcity\x7d\x7d \x7b\x7bcity\x7d\x7d \x7b\x7bzip\x7d\x7d",
         [("city", "City"), ("postalCode", "ZIP")], []⟩
      = .ok [⟨"city", "City", none⟩, ⟨"postalCode", "ZIP", none⟩]
    ∧ (([⟨"city", "City", none⟩, ⟨"postalCode", "ZIP", none⟩] : List FieldEntry).map
        FieldEntry.key).Nodup :=
  ⟨by decide,
   wrangle_resolved_keys_nodup
     ⟨some "\x7b\x7bcity\x7d\x7d \x7b\x7bcity\x7d\x7d \x7b\x7bzip\x7d\x7d",
      [("city", "City"), ("postalCode", "ZIP")], []⟩ _ (by decide) (by decide)⟩

/-! ## Helper lemmas: the code-unit string order -/

lemma charEqOfToNat {a b : Char} (h : a.toNat = b.toNat) : a = b :=
  Char.eq_of_val_eq (UInt32.ext h)

lemma charsLeB_total : ∀ as bs : List Char, charsLeB as bs = true ∨ charsLeB bs as = true := by
  intro as
  induction as with
  | nil => intro bs; left; rfl
  | cons a as ih =>
    intro bs
    cases bs with
    | nil => right; rfl
    | cons b bs =>
      rcases Nat.lt_trichotomy a.toNat b.toNat with h | h | h
      · left; simp [charsLeB, h]
      · rcases ih bs with h' | h'
        · left; simp only [charsLeB]; rw [if_neg (by omega), if_neg (by omega)]; exact h'
        · right; simp only [charsLeB]; rw [if_neg (by omega), if_neg (by omega)]; exact h'
      · right; simp [charsLeB, h]

lemma charsLeB_trans :
    ∀ as bs cs : List Char,
      charsLeB as bs = true → charsLeB bs cs = true → charsLeB as cs = true := by
  intro as
  induction as with
  | nil => intro bs cs _ _; rfl
  | cons a as ih =>
    intro bs cs h1 h2
    cases bs with
    | nil => simp [charsLeB] at h1
    | cons b bs =>
      cases cs with
      | nil => simp [charsLeB] at h2
      | cons c cs =>
        rcases Nat.lt_trichotomy a.toNat b.toNat with hab | hab | hab
        · rcases Nat.lt_trichotomy b.toNat c.toNat with hbc | hbc | hbc
          · simp [charsLeB, show a.toNat < c.toNat by omega]
          · simp [charsLeB, show a.toNat < c.toNat by omega]
          · simp only [charsLeB] at h2
            rw [if_neg (by omega), if_pos (by omega)] at h2
            exact absurd h2 (by simp)
        · rcases Nat.lt_trichotomy b.toNat c.toNat with hbc | hbc | hbc
          · simp [charsLeB, show a.toNat < c.toNat by omega]
          · simp only [charsLeB] at h1 h2 ⊢
            rw [if_neg (by omega), if_neg (by omega)] at h1
            rw [if_neg (by omega), if_neg (by omega)] at h2
            rw [if_neg (by omega), if_neg (by omega)]
            exact ih bs cs h1 h2
          · simp only [charsLeB] at h2
            rw [if_neg (by omega), if_pos (by omega)] at h2
            exact absurd h2 (by simp)
        · simp only [charsLeB] at h1
          rw [if_neg (by omega), if_pos (by omega)] at h1
          exact absurd h1 (by simp)

lemma charsLeB_antisymm :
    ∀ as bs : List Char, charsLeB as bs = true → charsLeB bs as = true → as = bs := by
  intro as
  induction as with
  | nil =>
    intro bs _ h2
    cases bs with
    | nil => rfl
    | cons b bs => simp [charsLeB] at h2
  | cons a as ih =>
    intro bs h1 h2
    cases bs with
    | nil => simp [charsLeB] at h1
    | cons b bs =>
      rcases Nat.lt_trichotomy a.toNat b.toNat with hab | hab | hab
      · simp only [charsLeB] at h2
        rw [if_neg (by omega), if_pos (by omega)] at h2
        exact absurd h2 (by simp)
      · simp only [charsLeB] at h1 h2
        rw [if_neg (by omega), if_neg (by omega)] at h1
        rw [if_neg (by omega), if_neg (by omega)] at h2
        rw [charEqOfToNat hab, ih bs h1 h2]
      · simp only [charsLeB] at h1
        rw [if_neg (by omega), if_pos (by omega)] at h1
        exact absurd h1 (by simp)

instance : IsTotal String jsStrLe :=
  ⟨fun a b => charsLeB_total a.data b.data⟩

instance : IsTrans String jsStrLe :=
  ⟨fun a b c => charsLeB_trans a.data b.data c.data⟩

instance : IsAntisymm String jsStrLe :=
  ⟨fun a b h1 h2 => by
    have h := charsLeB_antisymm a.data b.data h1 h2
    cases a; cases b; exact congrArg String.mk h⟩

/-! ## Helper lemmas: object lookup -/

lemma find?_entry_of_mem {l : Obj} (hnd : (l.map Prod.fst).Nodup) {k : String}
    {v : Option String} (hm : (k, v) ∈ l) :
    (l.find? fun e => e.1 == k) = some (k, v) := by
  induction l with
  | nil => cases hm
  | cons e t ih =>
    have hnd' := List.nodup_cons.1 (show (e.1 :: t.map Prod.fst).Nodup from hnd)
    by_cases he : e.1 = k
    · have hke : (k, v) = e := by
        rcases List.mem_cons.1 hm with h' | h'
        · exact h'
        · exact absurd (List.mem_map.2 ⟨(k, v), h', rfl⟩) (he ▸ hnd'.1)
      rw [List.find?_cons_of_pos _ (by simp [he]), ← hke]
    · have hmt : (k, v) ∈ t := by
        rcases List.mem_cons.1 hm with h' | h'
        · exact absurd (congrArg Prod.fst h') (fun hc => he hc.symm)
        · exact h'
      rw [List.find?_cons_of_neg _ (by simp [he])]
      exact ih hnd'.2 hmt

lemma find?_entry_eq_none {l : Obj} {k : String} (h : k ∉ l.map Prod.fst) :
    (l.find? fun e => e.1 == k) = none := by
  rw [List.find?_eq_none]
  intro e he hek
  exact h (List.mem_map.2 ⟨e, he, by simpa using hek⟩)

lemma jsGetValue_perm {l₁ l₂ : Obj} (hperm : List.Perm l₁ l₂)
    (hnd : (l₁.map Prod.fst).Nodup) (k : String) :
    jsGetValue l₁ k = jsGetValue l₂ k := by
  have hnd₂ : (l₂.map Prod.fst).Nodup := ((hperm.map Prod.fst).nodup_iff).1 hnd
  by_cases hk : k ∈ l₁.map Prod.fst
  · obtain ⟨⟨k', v⟩, he, hek⟩ := List.mem_map.1 hk
    obtain rfl : k' = k := hek
    rw [jsGetValue, jsGetValue, find?_entry_of_mem hnd he,
      find?_entry_of_mem hnd₂ (hperm.subset he)]
  · rw [jsGetValue, jsGetValue, find?_entry_eq_none hk,
      find?_entry_eq_none fun hc => hk (((hperm.map Prod.fst).mem_iff).2 hc)]

/-- C9 (amended): `serializeAddress` sorts keys lexicographically
(code-unit order) and joins the values of *all* keys — a `null` value
contributes an empty entry rather than being skipped — so two objects
with the same key/value pairs serialize identically regardless of key
insertion order. -/
theorem serializeAddress_order_invariant (a₁ a₂ : Obj)
    (hnd : (a₁.map Prod.fst).Nodup) (hperm : List.Perm a₁ a₂) :
    serializeAddress a₁ = serializeAddress a₂ := by
  have hkeys : List.insertionSort jsStrLe (a₁.map Prod.fst)
      = List.insertionSort jsStrLe (a₂.map Prod.fst) :=
    List.eq_of_perm_of_sorted
      ((List.perm_insertionSort _ _).trans ((hperm.map Prod.fst).trans
        (List.perm_insertionSort _ _).symm))
      (List.sorted_insertionSort _ _) (List.sorted_insertionSort _ _)
  rw [serializeAddress, serializeAddress, hkeys]
  congr 1
  exact List.map_congr_left fun k _ => jsGetValue_perm hperm hnd k

/-- Witness for C9 (amended): two insertion orders of the same pairs
serialize to the same string. -/
theorem serializeAddress_order_invariant_witness :
    serializeAddress [("city", some "Berlin"), ("zone", some "BE")]
      = serializeAddress [("zone", some "BE"), ("city", some "Berlin")] :=
  serializeAddress_order_invariant _ _ (by decide) (by decide)

/-- C9 counterexample: the code joins *all* values (`Array.join` renders
`null` as an empty string); it does not join only the non-null values,
which would give `"x"` here instead of `"\nx"`. -/
theorem serializeAddress_null_counterexample :
    serializeAddress [("a", none), ("b", some "x")] = "\nx"
      ∧ serializeAddress [("a", none), ("b", some "x")] ≠ "x" :=
  ⟨rfl, by decide⟩

/-! ## Helper lemmas: `jsPick` -/

lemma jsPick_mem_iff (vals : Obj) (keys : List String)
    (hnd : (vals.map Prod.fst).Nodup) (k : String) (v : Option String) :
    (k, v) ∈ jsPick vals keys ↔ ((k, v) ∈ vals ∧ k ∈ keys) := by
  rw [jsPick, List.mem_filterMap]
  constructor
  · rintro ⟨k', hk', hsome⟩
    rcases hfind : vals.find? (fun e => e.1 == k') with _ | ⟨e1, e2⟩
    · rw [hfind] at hsome; simp at hsome
    · rw [hfind] at hsome
      have he : (e1 == k') = true := by simpa using List.find?_some hfind
      have hem := List.mem_of_find?_eq_some hfind
      simp only [Option.map_some'] at hsome
      injection hsome with hsome
      have hk : k' = k := congrArg Prod.fst hsome
      have hv : e2 = v := congrArg Prod.snd hsome
      have he1 : e1 = k := by rw [← hk]; simpa using he
      subst he1; subst hv
      exact ⟨hem, hk ▸ mem_dedupKeepFirst.1 hk'⟩
  · rintro ⟨hmv, hk⟩
    exact ⟨k, mem_dedupKeepFirst.2 hk, by rw [find?_entry_of_mem hnd hmv]; rfl⟩

/-- C3: when the previous value has a key outside the resolved field
set, reconciliation returns the pick of the surviving keys (exactly the
entries whose key is in the field set, values unchanged); when every
key survives, it returns the previous value itself, so the canonical
serialization is unchanged. -/
theorem reconcile_prunes_or_identity (vals : Obj) (addressFields : List FieldEntry)
    (hnd : (vals.map Prod.fst).Nodup) :
    ((∀ k ∈ vals.map Prod.fst, k ∈ addressFields.map FieldEntry.key) →
        ∃ out, getAddressFieldDifferences (some vals) addressFields = .ok out
          ∧ out = vals ∧ serializeAddress out = serializeAddress vals)
    ∧ ((∃ k ∈ vals.map Prod.fst, k ∉ addressFields.map FieldEntry.key) →
        ∃ out, getAddressFieldDifferences (some vals) addressFields = .ok out
          ∧ ∀ k v, ((k, v) ∈ out ↔ ((k, v) ∈ vals ∧ k ∈ addressFields.map FieldEntry.key))) := by
  constructor
  · intro hall
    have hfil : ((vals.map Prod.fst).filter fun k =>
        !(addressFields.map (·.key)).contains k) = [] := by
      rw [List.filter_eq_nil_iff]
      intro a ha
      simpa using hall a ha
    refine ⟨vals, ?_, rfl, rfl⟩
    show (if (!((vals.map Prod.fst).filter fun k =>
        !(addressFields.map (·.key)).contains k).isEmpty) then
          Except.ok (jsPick vals (addressFields.map (·.key)))
        else Except.ok vals) = Except.ok vals
    rw [hfil]
    rfl
  · rintro ⟨k₀, hk₀, hk₀n⟩
    have hfil : ((vals.map Prod.fst).filter fun k =>
        !(addressFields.map (·.key)).contains k) ≠ [] :=
      List.ne_nil_of_mem (List.mem_filter.2 ⟨hk₀, by simpa using hk₀n⟩)
    have hie : ((vals.map Prod.fst).filter fun k =>
        !(addressFields.map (·.key)).contains k).isEmpty = false := by
      rw [Bool.eq_false_iff]
      exact fun hc => hfil (List.isEmpty_iff.1 hc)
    refine ⟨jsPick vals (addressFields.map (·.key)), ?_, ?_⟩
    · show (if (!((vals.map Prod.fst).filter fun k =>
          !(addressFields.map (·.key)).contains k).isEmpty) then
            Except.ok (jsPick vals (addressFields.map (·.key)))
          else Except.ok vals) = Except.ok (jsPick vals (addressFields.map (·.key)))
      rw [hie]
      rfl
    · intro k v
      simpa using jsPick_mem_iff vals (addressFields.map (·.key)) hnd k v

/-- Witness for C3: `{city, zone}` reconciled against the field set
`[city]` drops `zone` and keeps `city` unchanged; reconciled against
`[city, zone]` it is returned as-is. -/
theorem reconcile_prunes_or_identity_witness :
    ((∀ k ∈ ([("city", some "Berlin"), ("zone", some "BE")] : Obj).map Prod.fst,
        k ∈ ([⟨"city", "City", none⟩] : List FieldEntry).map FieldEntry.key) →
      ∃ out, getAddressFieldDifferences
          (some [("city", some "Berlin"), ("zone", some "BE")]) [⟨"city", "City", none⟩]
            = .ok out
        ∧ out = [("city", some "Berlin"), ("zone", some "BE")]
        ∧ serializeAddress out
            = serializeAddress [("city", some "Berlin"), ("zone", some "BE")])
    ∧ ((∃ k ∈ ([("city", some "Berlin"), ("zone", some "BE")] : Obj).map Prod.fst,
        k ∉ ([⟨"city", "City", none⟩] : List FieldEntry).map FieldEntry.key) →
      ∃ out, getAddressFieldDifferences
          (some [("city", some "Berlin"), ("zone", some "BE")]) [⟨"city", "City", none⟩]
            = .ok out
        ∧ ∀ k v, ((k, v) ∈ out ↔
            ((k, v) ∈ ([("city", some "Berlin"), ("zone", some "BE")] : Obj)
              ∧ k ∈ ([⟨"city", "City", none⟩] : List FieldEntry).map FieldEntry.key))) :=
  reconcile_prunes_or_identity [("city", some "Berlin"), ("zone", some "BE")]
    [⟨"city", "City", none⟩] (by decide)

/-- C4 counterexample: reconciling a `null`/missing previous value is
*not* treated as `{}` — `Object.keys(null)` throws a `TypeError` (which
`fetchData` then catches as a load failure). -/
theorem reconcile_null_counterexample :
    getAddressFieldDifferences none [] = .error JsError.typeError
      ∧ getAddressFieldDifferences none [] ≠ .ok [] :=
  ⟨rfl, by decide⟩

/-- C4 (amended): reconciling an *empty object* previous value is a
no-op returning `{}` for every field set, while a `null`/missing
previous value always throws a `TypeError`. -/
theorem reconcile_empty_noop (addressFields : List FieldEntry) :
    getAddressFieldDifferences (some []) addressFields = .ok []
      ∧ ∀ fields2 : List FieldEntry, getAddressFieldDifferences none fields2
          = .error JsError.typeError :=
  ⟨rfl, fun _ => rfl⟩

/-- C5 counterexample: the empty template is non-null, yet parsing
throws — `"".match(/([A-Za-z])\w+/g)` returns `null` and the subsequent
`.filter` raises a `TypeError` — instead of succeeding with the empty
field sequence. -/
theorem wrangle_empty_template_counterexample :
    wrangleAddressData ⟨some "", [("city", "City")], []⟩ = .error JsError.typeError
      ∧ wrangleAddressData ⟨some "", [("city", "City")], []⟩ ≠ .ok [] :=
  ⟨rfl, by decide⟩

/-- C5 (amended): parsing throws for a null/missing template *and* for
any non-null template with no regex token match (empty string, pure
punctuation, isolated single letters); a template with at least one
token match but no recognized token parses successfully to the empty
field list. -/
theorem wrangle_failure_modes (labels : List (String × String)) (zones : List ZoneEntry) :
    (wrangleAddressData ⟨none, labels, zones⟩ = .error JsError.typeError)
    ∧ (∀ t : String, regexTokens t = [] →
        wrangleAddressData ⟨some t, labels, zones⟩ = .error JsError.typeError)
    ∧ (∀ t : String, regexTokens t ≠ [] → (∀ m ∈ regexTokens t, m ∉ necessaryFields) →
        wrangleAddressData ⟨some t, labels, zones⟩ = .ok []) := by
  refine ⟨rfl, fun t ht => ?_, fun t ht hnone => ?_⟩
  · simp only [wrangleAddressData, if_pos ht]
  · have hmm : mappedMatches t = [] := by
      rw [mappedMatches,
        List.filter_eq_nil_iff.2 fun m hm => by simpa using hnone m hm]
      rfl
    simp only [wrangleAddressData, if_neg ht]
    rw [hmm,
      show (labels.filter fun e => ([] : List String).contains e.1) = [] from
        List.filter_eq_nil_iff.2 fun a _ => by simp]
    rfl

/-- Witness for C5 (amended): `null` template throws; `"---"` (pure
punctuation, non-null) throws; a template with only the unrecognized
token `firstName` succeeds with the empty field list. -/
theorem wrangle_failure_modes_witness :
    wrangleAddressData ⟨none, [("city", "City")], []⟩ = .error JsError.typeError
      ∧ wrangleAddressData ⟨some "---", [("city", "City")], []⟩ = .error JsError.typeError
      ∧ wrangleAddressData ⟨some "\x7b\x7bfirstName\x7d\x7d", [("city", "City")], []⟩ = .ok [] :=
  ⟨(wrangle_failure_modes [("city", "City")] []).1,
   (wrangle_failure_modes [("city", "City")] []).2.1 "---" (by decide),
   (wrangle_failure_modes [("city", "City")] []).2.2 "\x7b\x7bfirstName\x7d\x7d"
     (by decide) (by decide)⟩

/-- C6 counterexample: lodash `truncate(name, {length: 30})` keeps the
*total* label prefix at 30 characters (27 name characters plus the
three-dot omission); it does not keep 30 name characters and then
append an ellipsis — the built label does not even start with the first
30 characters of the name. -/
theorem zone_label_truncate_counterexample :
    (buildZoneOption ⟨"XX", ⟨List.replicate 31 'a'⟩⟩).label
        = (⟨List.replicate 27 'a'⟩ : String) ++ "..." ++ " - " ++ "XX"
      ∧ ¬ List.IsPrefix (List.replicate 30 'a')
          (buildZoneOption ⟨"XX", ⟨List.replicate 31 'a'⟩⟩).label.data :=
  ⟨rfl, by decide⟩

/-- C6 (amended): a zone option's `value` is the entry's *name*; its
`label` is the name — returned whole at length ≤ 30, and otherwise cut
to 27 characters plus `"..."` for a total of 30 — followed by `" - "`
and the code; truncation is applied before the ascending code-unit sort
by label. -/
theorem zone_option_build_spec (zs : List ZoneEntry) (z : ZoneEntry) :
    (buildZoneOption z).value = z.name
    ∧ (z.name.length ≤ 30 → (buildZoneOption z).label = z.name ++ " - " ++ z.code)
    ∧ (30 < z.name.length →
        (buildZoneOption z).label = (⟨z.name.data.take 27⟩ : String) ++ "..." ++ " - " ++ z.code)
    ∧ (zoneOptions zs).Pairwise (fun a b => jsStrLe a.label b.label)
    ∧ List.Perm (zoneOptions zs) (zs.map buildZoneOption) := by
  refine ⟨rfl, fun h30 => ?_, fun h30 => ?_, ?_, ?_⟩
  · rw [buildZoneOption, jsTruncate, if_pos h30]
  · rw [buildZoneOption, jsTruncate, if_neg (not_le.2 h30)]
  · haveI : IsTotal ZoneOption fun a b => jsStrLe a.label b.label :=
      ⟨fun a b => charsLeB_total a.label.data b.label.data⟩
    haveI : IsTrans ZoneOption fun a b => jsStrLe a.label b.label :=
      ⟨fun a b c => charsLeB_trans a.label.data b.label.data c.label.data⟩
    exact List.sorted_insertionSort _ _
  · exact List.perm_insertionSort _ _

/-- Witness for C6 (amended). -/
theorem zone_option_build_spec_witness :
    (buildZoneOption ⟨"ON", "Ontario"⟩).value = (⟨"ON", "Ontario"⟩ : ZoneEntry).name
    ∧ ((⟨"ON", "Ontario"⟩ : ZoneEntry).name.length ≤ 30 →
        (buildZoneOption ⟨"ON", "Ontario"⟩).label
          = (⟨"ON", "Ontario"⟩ : ZoneEntry).name ++ " - " ++ (⟨"ON", "Ontario"⟩ : ZoneEntry).code)
    ∧ (30 < (⟨"ON", "Ontario"⟩ : ZoneEntry).name.length →
        (buildZoneOption ⟨"ON", "Ontario"⟩).label
          = (⟨(⟨"ON", "Ontario"⟩ : ZoneEntry).name.data.take 27⟩ : String) ++ "..." ++ " - "
              ++ (⟨"ON", "Ontario"⟩ : ZoneEntry).code)
    ∧ (zoneOptions [⟨"ON", "Ontario"⟩]).Pairwise (fun a b => jsStrLe a.label b.label)
    ∧ List.Perm (zoneOptions [⟨"ON", "Ontario"⟩]) ([⟨"ON", "Ontario"⟩].map buildZoneOption) :=
  zone_option_build_spec [⟨"ON", "Ontario"⟩] ⟨"ON", "Ontario"⟩

/-- C7 counterexample: duplicate zone entries yield duplicate options
(no deduplication), and the sort is case-*sensitive*: "Beta - B"
precedes "alpha - A" in code-unit order although a case-insensitive
ascending sort would put "alpha - A" first. -/
theorem zone_options_counterexample :
    ¬ (zoneOptions [⟨"ON", "Ontario"⟩, ⟨"ON", "Ontario"⟩]).Nodup
      ∧ (zoneOptions [⟨"B", "Beta"⟩, ⟨"A", "alpha"⟩]).map ZoneOption.label
          = ["Beta - B", "alpha - A"]
      ∧ ¬ (zoneOptions [⟨"B", "Beta"⟩, ⟨"A", "alpha"⟩]).Pairwise
            (fun a b => jsStrLe ⟨a.label.data.map Char.toLower⟩ ⟨b.label.data.map Char.toLower⟩) :=
  ⟨by decide, rfl, by decide⟩

/-- C7 (amended): the option list is sorted ascending by label in
case-sensitive code-unit order; every option occurs exactly as often as
in the unsorted build (duplicates are preserved, nothing is
deduplicated); the build is a pure function of the entry list, hence
deterministic. -/
theorem zone_options_sorted_counts (zs : List ZoneEntry) :
    (zoneOptions zs).Pairwise (fun a b => jsStrLe a.label b.label)
    ∧ (∀ o : ZoneOption, (zoneOptions zs).count o = (zs.map buildZoneOption).count o) := by
  constructor
  · haveI : IsTotal ZoneOption fun a b => jsStrLe a.label b.label :=
      ⟨fun a b => charsLeB_total a.label.data b.label.data⟩
    haveI : IsTrans ZoneOption fun a b => jsStrLe a.label b.label :=
      ⟨fun a b c => charsLeB_trans a.label.data b.label.data c.label.data⟩
    exact List.sorted_insertionSort _ _
  · exact fun o => (List.perm_insertionSort _ _).count_eq o

/-- C8: the `ZoneSelect` reset effect emits a clearing update (value
`null`) iff the current value is non-null, non-empty and equal to no
option's `value`; otherwise (a matching value, or a null/empty value)
no update is emitted and the selection stands. -/
theorem validateSelection_clears_iff (options : List ZoneOption) (value : Option String) :
    (validateSelection options value = some none ↔
      (∃ s, value = some s ∧ s ≠ "" ∧ ∀ o ∈ options, o.value ≠ s))
    ∧ (validateSelection options value ≠ some none →
        validateSelection options value = none) := by
  constructor
  · constructor
    · intro h
      cases value with
      | none => simp [validateSelection] at h
      | some v =>
        by_cases hv : v = ""
        · simp [validateSelection, hv] at h
        · by_cases hf : ((options.find? fun o => o.value == v).isSome : Bool) = true
          · simp [validateSelection, hv, hf] at h
          · refine ⟨v, rfl, hv, fun o ho hov => ?_⟩
            have : (options.find? fun o => o.value == v) = none :=
              Option.not_isSome_iff_eq_none.1 (by simpa using hf)
            rw [List.find?_eq_none] at this
            exact this o ho (by simp [hov])
    · rintro ⟨s, rfl, hne, hnoopt⟩
      have hfind : (options.find? fun o => o.value == s) = none :=
        List.find?_eq_none.2 fun o ho => by simpa using hnoopt o ho
      rw [validateSelection, if_neg hne, hfind]
      rfl
  · intro h
    cases value with
    | none => rfl
    | some v =>
      by_cases hv : v = ""
      · simp [validateSelection, hv]
      · by_cases hf : ((options.find? fun o => o.value == v).isSome : Bool) = true
        · simp [validateSelection, hv, hf]
        · exact absurd (by simp [validateSelection, hv, hf]) h

/-- Witness for C8: with the single option `Ontario`, the value
`"Quebec"` is cleared to `null`, while `"Ontario"` and a null value
emit no update. -/
theorem validateSelection_clears_iff_witness :
    validateSelection [⟨"Ontario", "Ontario - ON"⟩] (some "Quebec") = some none
      ∧ validateSelection [⟨"Ontario", "Ontario - ON"⟩] (some "Ontario") = none
      ∧ validateSelection [⟨"Ontario", "Ontario - ON"⟩] none = none :=
  ⟨(validateSelection_clears_iff [⟨"Ontario", "Ontario - ON"⟩] (some "Quebec")).1.2
     ⟨"Quebec", rfl, by decide, by decide⟩,
   (validateSelection_clears_iff [⟨"Ontario", "Ontario - ON"⟩] (some "Ontario")).2 (by decide),
   (validateSelection_clears_iff [⟨"Ontario", "Ontario - ON"⟩] none).2 (by decide)⟩

/-! ## C1: the race between two outstanding fetches -/

/-- A DE-like schema: requests `province` and carries a zone list. -/
def deCountry : CountrySchema :=
  ⟨some "\x7b\x7baddress1\x7d\x7d_\x7b\x7bcity\x7d\x7d_\x7b\x7bprovince\x7d\x7d_\x7b\x7bzip\x7d\x7d",
   [("address1", "Street"), ("city", "City"), ("zone", "State"), ("postalCode", "Postal code")],
   [⟨"BY", "Bavaria"⟩]⟩

/-- An FR-like schema: no `province`, different field order and labels. -/
def frCountry : CountrySchema :=
  ⟨some "\x7b\x7baddress1\x7d\x7d_\x7b\x7bzip\x7d\x7d \x7b\x7bcity\x7d\x7d",
   [("address1", "Address"), ("city", "City"), ("postalCode", "Postal code")], []⟩

/-- The fields `wrangleAddressData` resolves for `deCountry`. -/
def deResolvedFields : List FieldEntry :=
  [⟨"address1", "Street", none⟩, ⟨"city", "City", none⟩,
   ⟨"zone", "State", some [⟨"BY", "Bavaria"⟩]⟩, ⟨"postalCode", "Postal code", none⟩]

/-- The fields `wrangleAddressData` resolves for `frCountry`. -/
def frResolvedFields : List FieldEntry :=
  [⟨"address1", "Address", none⟩, ⟨"postalCode", "Postal code", none⟩, ⟨"city", "City", none⟩]

/-- C1 (refuted — code bug): a fetch for DE is outstanding when the FR
fetch is initiated; FR's response arrives first, DE's second.  Because
`fetchData` applies every completion unconditionally, the *stale* DE
result overwrites FR's: the final field set and the final pruned value
handed to `onCountryChange` are DE's (the zone survives), not FR's
(under which the zone would have been pruned to `{}`). -/
theorem stale_fetch_result_applied :
    wrangleAddressData deCountry = .ok deResolvedFields
    ∧ wrangleAddressData frCountry = .ok frResolvedFields
    ∧ deResolvedFields ≠ frResolvedFields
    ∧ (runCompletions initState
        [⟨some [("zone", some "Bavaria")], .ok frCountry⟩,
         ⟨some [("zone", some "Bavaria")], .ok deCountry⟩]).fields
        = some deResolvedFields
    ∧ (runCompletions initState
        [⟨some [("zone", some "Bavaria")], .ok frCountry⟩,
         ⟨some [("zone", some "Bavaria")], .ok deCountry⟩]).fields
        ≠ some frResolvedFields
    ∧ (runCompletions initState
        [⟨some [("zone", some "Bavaria")], .ok frCountry⟩,
         ⟨some [("zone", some "Bavaria")], .ok deCountry⟩]).appliedValue
        = some [("zone", some "Bavaria")]
    ∧ getAddressFieldDifferences (some [("zone", some "Bavaria")]) frResolvedFields
        = .ok [] := by
  refine ⟨?_, ?_, ?_, ?_, ?_, ?_, ?_⟩ <;> first | rfl | decide
